import Mathlib

/-!
# MergeMate Minimal API — verification development

Shallow embedding of `api.py` (MergeMate Minimal API): the
repository-acquisition → candidate-selection → relevance-scoring →
snippet-extraction → ranking pipeline, plus the single-file fetch endpoint.

Modelling conventions:
* Python `str` is modelled as `List Char` (named `Str` below); all string
  operations (lower-casing, splitting, joining, lexicographic comparison,
  substring search) are defined structurally so that they evaluate.
* Python `float` scores are modelled as `ℚ`: every score the code produces
  is an integer count, `1.0`, or `1.5`, all exactly representable, and
  float comparison on such values coincides with rational comparison.
* The filesystem snapshot is a list of entries (path components relative to
  the snapshot root, directory flag, byte size, decoded lines, raw text).
* Subprocess outcomes (exit codes, stderr, stdout) are supplied by an
  environment record; the functions are deterministic in that environment.
* Python's `list.sort` (stable, ascending by key) is modelled by the stable
  `List.insertionSort` with the same key order.
-/

namespace MergeMate

/-- Python `str` as a list of characters. -/
abbrev Str := List Char

/-- ASCII-range lower-casing, modelling `str.lower` / `re.IGNORECASE`
normalisation on the character data. -/
def lowerStr (s : Str) : Str := s.map Char.toLower

/-- Does `needle` occur as a contiguous substring of `hay`?  Models Python's
`re.search` with a literal (escaped) pattern: an empty needle matches. -/
def hasSubstr (hay needle : Str) : Bool :=
  match hay with
  | [] => needle.isEmpty
  | c :: t => needle.isPrefixOf (c :: t) || hasSubstr t needle

/-- Split a string at every occurrence of the character `c`
(Python `str.split(c)`): always returns at least one piece. -/
def splitOnChar (c : Char) : Str → List Str
  | [] => [[]]
  | x :: xs =>
    match splitOnChar c xs with
    | [] => [[]]
    | h :: t => if x = c then [] :: h :: t else (x :: h) :: t

/-- Join pieces with a single separating character
(Python `sep.join(pieces)` for a one-character separator). -/
def joinWithChar (c : Char) : List Str → Str
  | [] => []
  | [x] => x
  | x :: y :: t => x ++ c :: joinWithChar c (y :: t)

/-- Lexicographic `≤` on strings by code point, as Python compares `str`. -/
def strLE : Str → Str → Bool
  | [], _ => true
  | _ :: _, [] => false
  | a :: as, b :: bs => if a < b then true else if b < a then false else strLE as bs

/-- Python whitespace characters stripped by `str.strip()` (ASCII range). -/
def isPySpace (c : Char) : Bool :=
  c = ' ' || c = '\t' || c = '\n' || c = '\x0d' || c = '\x0b' || c = '\x0c'

/-- Truthiness of an optional Python list: `None` and `[]` are falsy. -/
def optListTruthy {α : Type} : Option (List α) → Bool
  | none => false
  | some l => !l.isEmpty

/-- Truthiness of an optional Python string: `None` and `""` are falsy. -/
def optStrTruthy : Option Str → Bool
  | none => false
  | some s => !s.isEmpty

/-- The set `DEFAULT_INCLUDE_EXTS` from `api.py`: recognised code/config/doc
extensions (already lower-case, with the leading dot). -/
def DEFAULT_INCLUDE_EXTS : List Str :=
  [".py".data, ".js".data, ".ts".data, ".tsx".data, ".jsx".data, ".java".data,
   ".go".data, ".rb".data, ".rs".data, ".cpp".data, ".cc".data, ".c".data,
   ".h".data, ".hpp".data, ".cs".data, ".kt".data, ".swift".data, ".php".data,
   ".scala".data, ".m".data, ".mm".data, ".sh".data, ".bash".data, ".ps1".data,
   ".yml".data, ".yaml".data, ".json".data, ".toml".data, ".gradle".data,
   ".md".data]

/-- The set `BINARY_EXTS` from `api.py`: extension denylist for binary files. -/
def BINARY_EXTS : List Str :=
  [".png".data, ".jpg".data, ".jpeg".data, ".gif".data, ".pdf".data,
   ".zip".data, ".gz".data, ".bz2".data, ".7z".data, ".tar".data,
   ".woff".data, ".woff2".data, ".ttf".data]

/-- The set `SKIP_DIRS` from `api.py`: directory names excluded from scanning. -/
def SKIP_DIRS : List Str :=
  [".git".data, "node_modules".data, "dist".data, "build".data, ".venv".data,
   "venv".data, ".tox".data, ".idea".data, ".vscode".data, "target".data,
   "out".data]

/-- Python's `pathlib.PurePath.suffix`: the extension of a file name — the part from
the last dot on, provided the last dot is neither the first nor the last
character of the name; otherwise empty. -/
def pySuffix (name : Str) : Str :=
  let parts := splitOnChar '.' name
  if parts.length ≤ 1 then []
  else if parts.dropLast = [([] : Str)] ∨ parts.getLastD [] = [] then []
  else '.' :: parts.getLastD []

/-- The value `p.suffix.lower()` of a path given as components: the lower-cased
extension of the final component. -/
def fileExt (parts : List Str) : Str := lowerStr (pySuffix (parts.getLastD []))

/-- Python's `pathlib.Path(s)` component normalisation: split on `/`, dropping empty
pieces and `.` pieces (`..` is kept, as `pathlib` keeps it). -/
def pathParts (p : Str) : List Str :=
  (splitOnChar '/' p).filter (fun c => c != ([] : Str) && c != ['.'])

/-- One entry of the materialised snapshot: path components, whether it is a
directory, its byte size, its decoded lines, and its raw decoded text. -/
structure FSEntry where
  parts : List Str
  isDir : Bool
  size : Nat
  lines : List Str
  content : Str
deriving DecidableEq

/-- The predicate `is_text_code_file` from `api.py`: reject binary extensions; everything
else (known code/config/doc extensions, unknown extensions, no extension)
is accepted. -/
def is_text_code_file (parts : List Str) : Bool :=
  let s := fileExt parts
  if s ∈ BINARY_EXTS then false
  else if ¬s.isEmpty ∧ s ∉ DEFAULT_INCLUDE_EXTS then true
  else true

/-- The reader `read_lines_safe` from `api.py` (at its default 1 MiB ceiling, the only
call mode the collector uses): absent paths, directories (whose `open`
raises, caught by the blanket handler) and oversized files all yield `[]`;
otherwise the decoded lines. -/
def read_lines_safe (fs : List FSEntry) (relParts : List Str) : List Str :=
  match fs.find? (fun e => e.parts == relParts) with
  | none => []
  | some e => if e.isDir then [] else if 1024 * 1024 < e.size then [] else e.lines

/-- The `Snippet` dataclass from `api.py`. -/
structure Snippet where
  path : Str
  start_line : Nat
  end_line : Nat
  preview : Str
deriving DecidableEq

/-- The `RelevantFile` dataclass from `api.py` (`lines` is the line count). -/
structure RelevantFile where
  path : Str
  score : ℚ
  lines : Nat
  snippets : List Snippet
deriving DecidableEq

/-- Does a line match at least one keyword, case-insensitively?  Models one
`kw_re.search(line)` test, where `kw_re` is the case-insensitive alternation
of the escaped keywords. -/
def lineMatches (kws : List Str) (line : Str) : Bool :=
  kws.any (fun k => hasSubstr (lowerStr line) (lowerStr k))

/-- The 1-based positions of the matching lines, scanning from line `i`. -/
def matchPositionsFrom (kws : List Str) : Nat → List Str → List Nat
  | _, [] => []
  | i, l :: ls =>
    if lineMatches kws l then i :: matchPositionsFrom kws (i + 1) ls
    else matchPositionsFrom kws (i + 1) ls

/-- The 1-based positions of all lines matching the keyword pattern, in
order (`matches` in `keyword_score`). -/
def matchPositions (lines kws : List Str) : List Nat :=
  matchPositionsFrom kws 1 lines

/-- The scorer `keyword_score` from `api.py`: score is the number of matching lines;
the first 10 match positions yield snippets whose window is hard-coded to
±5 lines around the match (the function has no radius parameter). -/
def keyword_score (lines : List Str) (keywords : List Str) : ℚ × List Snippet :=
  if lines.isEmpty || keywords.isEmpty then (0, [])
  else
    let ms := matchPositions lines keywords
    ((ms.length : ℚ),
     (ms.take 10).map (fun i =>
       { path := []
         start_line := max 1 (i - 5)
         end_line := min lines.length (i + 5)
         preview := joinWithChar '\n'
           ((lines.drop (max 1 (i - 5) - 1)).take
             (min lines.length (i + 5) - (max 1 (i - 5) - 1))) }))

/-- The guards of the per-candidate loop of `collect_relevant` that run
before any scoring: no path component (of the full on-disk path) in
`SKIP_DIRS`, and `read_lines_safe` produced a non-empty line list. -/
def passesPreScore (fs : List FSEntry) (rootParts relParts : List Str) : Bool :=
  !((rootParts ++ relParts).any (fun part => SKIP_DIRS.contains part)) &&
    !(read_lines_safe fs relParts).isEmpty

/-- The local pair `(score, snippets)` of the candidate loop after the
keyword branch: the baseline `(1.0, [])`, overwritten by `keyword_score`
when the keyword list is truthy. -/
def candPair (fs : List FSEntry) (keywords : Option (List Str)) (relParts : List Str) :
    ℚ × List Snippet :=
  if optListTruthy keywords then keyword_score (read_lines_safe fs relParts) (keywords.getD [])
  else ((1 : ℚ), ([] : List Snippet))

/-- The local `score` of the candidate loop after the extension-bonus
branch: +0.5 only when keywords are not truthy and the lower-cased suffix
of the candidate's full path is a recognised extension. -/
def candScore (fs : List FSEntry) (rootParts : List Str)
    (keywords : Option (List Str)) (relParts : List Str) : ℚ :=
  if optListTruthy keywords = false ∧ fileExt (rootParts ++ relParts) ∈ DEFAULT_INCLUDE_EXTS
  then (candPair fs keywords relParts).1 + mkRat 1 2
  else (candPair fs keywords relParts).1

/-- The scoring tail of the per-candidate loop of `collect_relevant`: the
file is kept only when its score is strictly positive; each snippet gets the
candidate's root-relative path. -/
def scoreCandidate (fs : List FSEntry) (rootParts : List Str)
    (keywords : Option (List Str)) (relParts : List Str) : Option RelevantFile :=
  let rel := joinWithChar '/' relParts
  if 0 < candScore fs rootParts keywords relParts then
    some { path := rel, score := candScore fs rootParts keywords relParts,
           lines := (read_lines_safe fs relParts).length,
           snippets := (candPair fs keywords relParts).2.map (fun s => { s with path := rel }) }
  else none

/-- One iteration of the candidate loop of `collect_relevant`: the pre-score
guards followed by scoring. -/
def processCandidate (fs : List FSEntry) (rootParts : List Str)
    (keywords : Option (List Str)) (relParts : List Str) : Option RelevantFile :=
  if passesPreScore fs rootParts relParts then scoreCandidate fs rootParts keywords relParts
  else none

/-- The sort key order of `results.sort(key=lambda r: (-r.score, r.lines, r.path))`:
score descending, then line count ascending, then path ascending. -/
def keyLE (a b : RelevantFile) : Bool :=
  decide (b.score < a.score) ||
    (decide (a.score = b.score) &&
      (decide (a.lines < b.lines) ||
        (decide (a.lines = b.lines) && strLE a.path b.path)))

/-- The key order `keyLE` as a relation, for the stable sort. -/
def rankLE (a b : RelevantFile) : Prop := keyLE a b = true

instance : DecidableRel rankLE := fun a b => inferInstanceAs (Decidable (keyLE a b = true))

/-- The candidate selection of `collect_relevant`: a truthy changed list is
mapped to paths under the root; otherwise a full recursive walk keeps every
non-directory entry that passes the binary-extension filter. -/
def candidateList (fs : List FSEntry) (changed_only : Option (List Str)) :
    List (List Str) :=
  if optListTruthy changed_only then
    (changed_only.getD []).map pathParts
  else
    (fs.filter (fun e => !e.isDir && is_text_code_file e.parts)).map (fun e => e.parts)

/-- The collector `collect_relevant` from `api.py`: process every candidate with the loop
body, sort the results by `(-score, lines, path)` (stably, as Python's
sort), and truncate to `max_files`.  The `snippet_radius` parameter is
accepted and, as in the source, never used. -/
def collect_relevant (fs : List FSEntry) (rootParts : List Str)
    (keywords : Option (List Str)) (changed_only : Option (List Str))
    (max_files : Nat) (snippet_radius : Nat) : List RelevantFile :=
  let results := (candidateList fs changed_only).filterMap (processCandidate fs rootParts keywords)
  (results.insertionSort rankLE).take max_files

/-- A FastAPI `HTTPException`: numeric status class and diagnostic text.
Numeric values interpolated into the Python detail strings are elided. -/
structure HTTPError where
  status : Nat
  detail : String
deriving DecidableEq

/-- Matching against `SAFE_HOSTS_PATTERN` (https scheme followed by a host): the URL starts
with `https://` followed by at least one character that is not `/`. -/
def matchesSafeHosts (url : Str) : Bool :=
  "https://".data.isPrefixOf url &&
    (match url.drop 8 with
     | [] => false
     | c :: _ => c != '/')

/-- The measure `du_mb` from `api.py`: total size of all regular files, in MiB. -/
def du_mb (fs : List FSEntry) : ℚ :=
  ((((fs.filter (fun e => !e.isDir)).map (fun e => e.size)).sum : ℕ) : ℚ) / (1024 * 1024)

/-- Outcomes of the subprocess calls made by `shallow_clone`, supplied as an
environment (the code only inspects exit codes and stderr). -/
structure CloneEnv where
  initExit : Int
  initErr : String
  remoteExit : Int
  remoteErr : String
  fetchExit : Int
  fetchErr : String
  altFetchExit : Int
  altFetchErr : String
  checkoutExit : Int
  checkoutErr : String
deriving DecidableEq

/-- The acquirer `shallow_clone` from `api.py`: validate the HTTPS URL, `git init`,
`git remote add`, fetch the literal ref with a `refs/heads/<ref>` retry,
`git checkout FETCH_HEAD`, then fail with status 413 when the materialised
snapshot exceeds the size ceiling. -/
def shallow_clone (url : Str) (env : CloneEnv) (fs : List FSEntry)
    (maxRepoSizeMB : ℚ) : Except HTTPError Unit :=
  if ¬matchesSafeHosts url then
    .error ⟨400, "repo_url must be HTTPS (e.g., https://host/org/repo.git)"⟩
  else if env.initExit ≠ 0 then .error ⟨500, "git init failed"⟩
  else if env.remoteExit ≠ 0 then .error ⟨400, "Invalid repo_url or permissions"⟩
  else if env.fetchExit ≠ 0 ∧ env.altFetchExit ≠ 0 then .error ⟨400, "Cannot fetch ref"⟩
  else if env.checkoutExit ≠ 0 then .error ⟨500, "git checkout failed"⟩
  else if maxRepoSizeMB < du_mb fs then .error ⟨413, "Repository too large"⟩
  else .ok ()

/-- The change detector `diff_changed_files` from `api.py`: a failing `git diff --name-only`
fails the request with status 400; otherwise the output lines that remain
non-empty after stripping whitespace are the changed paths. -/
def diff_changed_files (diffExit : Int) (outLines : List Str) : Except HTTPError (List Str) :=
  if diffExit ≠ 0 then .error ⟨400, "git diff failed"⟩
  else .ok (outLines.filter (fun p => p.any (fun c => !isPySpace c)))

/-- The fields of a validated `ReviewRequest` (schema validation is outside
the modelled core; `max_files ∈ [1,100]` and `snippet_radius ∈ [1,50]` hold
for every request that reaches the handler). -/
structure ReviewRequest where
  repo_url : Str
  ref : Str
  base_ref : Option Str
  keywords : Option (List Str)
  max_files : Nat
  snippet_radius : Nat
deriving DecidableEq

/-- The `ReviewResponse` payload. -/
structure ReviewResponse where
  repo_url : Str
  ref : Str
  base_ref : Option Str
  mode : String
  changed_files : Option (List Str)
  relevant : List RelevantFile
deriving DecidableEq

/-- The environment one `/v1/review` request runs against: the clone
outcomes, the materialised snapshot, its root path components, and the
outcomes of the base-ref fetch (ignored by the code) and of `git diff`. -/
structure ReviewEnv where
  clone : CloneEnv
  fs : List FSEntry
  rootParts : List Str
  baseFetchExit : Int
  diffExit : Int
  diffOutLines : List Str
deriving DecidableEq

/-- The `/v1/review` handler, parameterised by the collector so that
theorems can state which outcomes are independent of scoring.  A truthy
`base_ref` switches to diff mode: the diff result (possibly empty) is
passed to the collector as the changed list. -/
def reviewWith
    (collector : List FSEntry → List Str → Option (List Str) → Option (List Str) →
      Nat → Nat → List RelevantFile)
    (req : ReviewRequest) (env : ReviewEnv) (maxRepoSizeMB : ℚ) :
    Except HTTPError ReviewResponse :=
  match shallow_clone req.repo_url env.clone env.fs maxRepoSizeMB with
  | .error e => .error e
  | .ok _ =>
    if optStrTruthy req.base_ref then
      match diff_changed_files env.diffExit env.diffOutLines with
      | .error e => .error e
      | .ok changed =>
        .ok { repo_url := req.repo_url, ref := req.ref, base_ref := req.base_ref,
              mode := "diff", changed_files := some changed,
              relevant := collector env.fs env.rootParts req.keywords (some changed)
                req.max_files req.snippet_radius }
    else
      .ok { repo_url := req.repo_url, ref := req.ref, base_ref := req.base_ref,
            mode := "keywords", changed_files := none,
            relevant := collector env.fs env.rootParts req.keywords none
              req.max_files req.snippet_radius }

/-- The `/v1/review` handler of `api.py`. -/
def review (req : ReviewRequest) (env : ReviewEnv) (maxRepoSizeMB : ℚ) :
    Except HTTPError ReviewResponse :=
  reviewWith collect_relevant req env maxRepoSizeMB

/-- The fields of a validated `FileRequest` for `/v1/file`. -/
structure FileRequest where
  repo_url : Str
  ref : Str
  path : Str
  max_bytes : Nat
deriving DecidableEq

/-- The `/v1/file` success payload. -/
structure FileOut where
  path : Str
  bytes : Nat
  content : Str
deriving DecidableEq

/-- Resolution `(repo_dir / req.path).resolve()` with no symlinks involved: a leading
`/` makes the path absolute (pathlib's join discards the left side), empty
and `.` components vanish, and `..` removes the previous component. -/
def resolvePath (rootParts : List Str) (p : Str) : List Str :=
  let comps := (splitOnChar '/' p).filter (fun c => c != ([] : Str) && c != ['.'])
  let start := match p with
    | '/' :: _ => ([] : List Str)
    | _ => rootParts
  comps.foldl (fun acc c => if c = ['.', '.'] then acc.dropLast else acc ++ [c]) start

/-- The `str()` form of an absolute path given as components. -/
def strOfParts (parts : List Str) : Str := '/' :: joinWithChar '/' parts

/-- UTF-8 byte length of a string (`len(content.encode("utf-8"))`). -/
def utf8Len (s : Str) : Nat := (s.map (fun c => c.utf8Size)).sum

/-- The `/v1/file` handler of `api.py` after the clone succeeded: resolve
the requested path under the snapshot root, 404 for absent paths and
directories, then the string-prefix containment check (status 400,
"Path traversal detected"), the binary-extension check (415), the size cap
(413), and finally the decoded content. -/
def get_file (fs : List FSEntry) (rootParts : List Str) (req : FileRequest) :
    Except HTTPError FileOut :=
  let target := resolvePath rootParts req.path
  match fs.find? (fun e => e.parts == target) with
  | none => .error ⟨404, "File not found at ref"⟩
  | some e =>
    if e.isDir then .error ⟨404, "File not found at ref"⟩
    else if ¬(strOfParts rootParts).isPrefixOf (strOfParts target) then
      .error ⟨400, "Path traversal detected"⟩
    else if fileExt target ∈ BINARY_EXTS then
      .error ⟨415, "Binary files are not supported"⟩
    else if req.max_bytes < e.size then
      .error ⟨413, "File too large; raise max_bytes to fetch"⟩
    else .ok { path := req.path, bytes := utf8Len e.content, content := e.content }

/-! ## Order-theoretic helper lemmas -/

theorem strLE_cons_iff {a b : Char} {as bs : Str} :
    strLE (a :: as) (b :: bs) = true ↔ a < b ∨ (a = b ∧ strLE as bs = true) := by
  simp only [strLE]
  rcases lt_trichotomy a b with h | h | h
  · simp [h]
  · subst h; simp [lt_irrefl]
  · rw [if_neg (lt_asymm h), if_pos h]
    simp [lt_asymm h, ne_of_gt h]

theorem strLE_total (s t : Str) : strLE s t = true ∨ strLE t s = true := by
  induction s generalizing t with
  | nil => left; rfl
  | cons a as ih =>
    cases t with
    | nil => right; rfl
    | cons b bs =>
      rcases lt_trichotomy a b with h | h | h
      · left; rw [strLE_cons_iff]; exact Or.inl h
      · subst h
        rcases ih bs with h' | h'
        · left; rw [strLE_cons_iff]; exact Or.inr ⟨rfl, h'⟩
        · right; rw [strLE_cons_iff]; exact Or.inr ⟨rfl, h'⟩
      · right; rw [strLE_cons_iff]; exact Or.inl h

theorem strLE_trans (s t u : Str) (h1 : strLE s t = true) (h2 : strLE t u = true) :
    strLE s u = true := by
  induction s generalizing t u with
  | nil => rfl
  | cons a as ih =>
    cases t with
    | nil => simp [strLE] at h1
    | cons b bs =>
      cases u with
      | nil => simp [strLE] at h2
      | cons c cs =>
        rw [strLE_cons_iff] at h1 h2 ⊢
        rcases h1 with h1 | ⟨rfl, h1⟩
        · rcases h2 with h2 | ⟨rfl, h2⟩
          · exact Or.inl (lt_trans h1 h2)
          · exact Or.inl h1
        · rcases h2 with h2 | ⟨rfl, h2⟩
          · exact Or.inl h2
          · exact Or.inr ⟨rfl, ih _ _ h1 h2⟩

/-- The ranking order of the spec, stated declaratively: score descending,
then line count ascending, then path ascending. -/
def rankOrder (a b : RelevantFile) : Prop :=
  b.score < a.score ∨
    (a.score = b.score ∧
      (a.lines < b.lines ∨ (a.lines = b.lines ∧ strLE a.path b.path = true)))

theorem keyLE_eq_true_iff {a b : RelevantFile} : keyLE a b = true ↔ rankOrder a b := by
  simp [keyLE, rankOrder]

theorem rankLE_iff {a b : RelevantFile} : rankLE a b ↔ rankOrder a b :=
  keyLE_eq_true_iff

instance : IsTotal RelevantFile rankLE := by
  constructor
  intro a b
  rw [rankLE_iff, rankLE_iff]
  rcases lt_trichotomy a.score b.score with h | h | h
  · right; exact Or.inl h
  · rcases lt_trichotomy a.lines b.lines with h' | h' | h'
    · left; exact Or.inr ⟨h, Or.inl h'⟩
    · rcases strLE_total a.path b.path with h'' | h''
      · left; exact Or.inr ⟨h, Or.inr ⟨h', h''⟩⟩
      · right; exact Or.inr ⟨h.symm, Or.inr ⟨h'.symm, h''⟩⟩
    · right; exact Or.inr ⟨h.symm, Or.inl h'⟩
  · left; exact Or.inl h

instance : IsTrans RelevantFile rankLE := by
  constructor
  intro a b c hab hbc
  rw [rankLE_iff] at hab hbc ⊢
  rcases hab with hab | ⟨hab, hab'⟩
  · rcases hbc with hbc | ⟨hbc, _⟩
    · exact Or.inl (lt_trans hbc hab)
    · exact Or.inl (hbc ▸ hab)
  · rcases hbc with hbc | ⟨hbc, hbc'⟩
    · exact Or.inl (lt_of_lt_of_le hbc (le_of_eq hab.symm))
    · refine Or.inr ⟨hab.trans hbc, ?_⟩
      rcases hab' with h1 | ⟨h1, h1'⟩
      · rcases hbc' with h2 | ⟨h2, _⟩
        · exact Or.inl (lt_trans h1 h2)
        · exact Or.inl (h2 ▸ h1)
      · rcases hbc' with h2 | ⟨h2, h2'⟩
        · exact Or.inl (h1 ▸ h2)
        · exact Or.inr ⟨h1.trans h2, strLE_trans _ _ _ h1' h2'⟩

/-! ## Keyword scoring lemmas -/

theorem matchPositionsFrom_length (kws : List Str) (i : Nat) (ls : List Str) :
    (matchPositionsFrom kws i ls).length =
      (ls.filter (fun l => lineMatches kws l)).length := by
  induction ls generalizing i with
  | nil => rfl
  | cons l ls ih =>
    cases h : lineMatches kws l with
    | true => simp [matchPositionsFrom, List.filter_cons, h, ih]
    | false => simp [matchPositionsFrom, List.filter_cons, h, ih]

theorem matchPositionsFrom_bounds (kws : List Str) (i : Nat) (ls : List Str) :
    ∀ m ∈ matchPositionsFrom kws i ls, i ≤ m ∧ m < i + ls.length := by
  induction ls generalizing i with
  | nil => intro m hm; simp [matchPositionsFrom] at hm
  | cons l ls ih =>
    intro m hm
    cases h : lineMatches kws l with
    | true =>
      rw [matchPositionsFrom, if_pos h] at hm
      rcases List.mem_cons.mp hm with rfl | hm'
      · simp
      · have := ih (i + 1) m hm'
        constructor
        · omega
        · simpa [Nat.add_assoc, Nat.add_comm 1 ls.length] using this.2
    | false =>
      rw [matchPositionsFrom, if_neg (by simp [h])] at hm
      have := ih (i + 1) m hm
      constructor
      · omega
      · simpa [Nat.add_assoc, Nat.add_comm 1 ls.length] using this.2

/-! ## Claims C4 and C9: keyword scoring and snippet bounds -/

/-- Claim C4: for every file (as a list of lines) and every non-empty
keyword list, the keyword score equals the number of lines that match at
least one of the literal keywords case-insensitively, each matching line
counted once regardless of how many keywords or occurrences it contains. -/
theorem keyword_score_counts_matching_lines (lines kws : List Str) (h : kws ≠ []) :
    (keyword_score lines kws).1 =
      (((lines.filter (fun l => lineMatches kws l)).length : ℕ) : ℚ) := by
  have hk : kws.isEmpty = false := by
    cases kws with
    | nil => exact absurd rfl h
    | cons k ks => rfl
  cases lines with
  | nil => simp [keyword_score]
  | cons l ls =>
    rw [keyword_score, if_neg (by simp [hk])]
    show ((matchPositions (l :: ls) kws).length : ℚ) = _
    rw [matchPositions, matchPositionsFrom_length]

/-- Witness for C4 at a concrete file: the lines "has token", "none" and
"TOKEN!" give score 2 for keyword "token". -/
theorem keyword_score_counts_matching_lines_witness :
    (["token".data] : List Str) ≠ [] ∧
      (keyword_score ["has token".data, "none".data, "TOKEN!".data] ["token".data]).1 =
        ((2 : ℕ) : ℚ) := by
  refine ⟨by decide, ?_⟩
  rw [keyword_score_counts_matching_lines _ _ (by decide)]
  norm_num
  decide

/-- Claim C9: for a file with at least one line, every snippet produced by
keyword scoring satisfies `1 ≤ start_line ≤ end_line ≤ line count`, and at
most 10 snippets (from the first 10 match positions) are produced. -/
theorem keyword_score_snippets_in_bounds (lines kws : List Str)
    (h : 1 ≤ lines.length) :
    (∀ s ∈ (keyword_score lines kws).2,
        1 ≤ s.start_line ∧ s.start_line ≤ s.end_line ∧ s.end_line ≤ lines.length) ∧
      (keyword_score lines kws).2.length ≤ 10 := by
  cases hc : (lines.isEmpty || kws.isEmpty) with
  | true =>
    rw [keyword_score, if_pos (by simp [hc])]
    exact ⟨by intro s hs; simp at hs, by simp⟩
  | false =>
    rw [keyword_score, if_neg (by simp [hc])]
    constructor
    · intro s hs
      simp only [List.mem_map] at hs
      obtain ⟨i, hi, rfl⟩ := hs
      have hi' : i ∈ matchPositions lines kws := List.mem_of_mem_take hi
      obtain ⟨h1, h2⟩ := matchPositionsFrom_bounds kws 1 lines i hi'
      refine ⟨le_max_left _ _, ?_, min_le_left _ _⟩
      calc max 1 (i - 5) ≤ i := max_le h1 (Nat.sub_le _ _)
        _ ≤ min lines.length (i + 5) := le_min (by omega) (Nat.le_add_right _ _)
    · rw [List.length_map, List.length_take]
      exact min_le_left _ _

/-- Witness for C9 at a concrete one-line file with one match. -/
theorem keyword_score_snippets_in_bounds_witness :
    1 ≤ (["a token".data] : List Str).length ∧
      (keyword_score ["a token".data] ["token".data]).2.length ≤ 10 :=
  ⟨by decide, (keyword_score_snippets_in_bounds ["a token".data] ["token".data] (by decide)).2⟩

/-! ## Inversion lemmas for the candidate loop -/

theorem scoreCandidate_eq_some_iff {fs : List FSEntry} {rootParts : List Str}
    {kws : Option (List Str)} {rp : List Str} {f : RelevantFile} :
    scoreCandidate fs rootParts kws rp = some f ↔
      0 < candScore fs rootParts kws rp ∧
        f = { path := joinWithChar '/' rp, score := candScore fs rootParts kws rp,
              lines := (read_lines_safe fs rp).length,
              snippets := (candPair fs kws rp).2.map
                (fun s => { s with path := joinWithChar '/' rp }) } := by
  unfold scoreCandidate
  split_ifs with h
  · simp only [Option.some.injEq]
    exact ⟨fun he => ⟨h, he.symm⟩, fun he => he.2.symm⟩
  · simp [h]

theorem processCandidate_eq_some_iff {fs : List FSEntry} {rootParts : List Str}
    {kws : Option (List Str)} {rp : List Str} {f : RelevantFile} :
    processCandidate fs rootParts kws rp = some f ↔
      passesPreScore fs rootParts rp = true ∧ scoreCandidate fs rootParts kws rp = some f := by
  unfold processCandidate
  split_ifs with h <;> simp [h]

theorem mem_collect_relevant_iff {fs : List FSEntry} {rootParts : List Str}
    {kws changed : Option (List Str)} {mf sr : Nat} {f : RelevantFile} :
    f ∈ collect_relevant fs rootParts kws changed mf sr →
      ∃ rp ∈ candidateList fs changed, processCandidate fs rootParts kws rp = some f := by
  intro hf
  have hf1 : f ∈ ((candidateList fs changed).filterMap
      (processCandidate fs rootParts kws)).insertionSort rankLE :=
    List.mem_of_mem_take hf
  have hf2 : f ∈ (candidateList fs changed).filterMap (processCandidate fs rootParts kws) :=
    (List.mem_insertionSort rankLE).mp hf1
  simpa using List.mem_filterMap.mp hf2

/-! ## Claim C5: ranking invariants of the relevant list -/

/-- Claim C5: the relevant list is sorted by score descending, then line
count ascending, then path ascending; its length never exceeds the
requested `max_files`; and no file with score ≤ 0 appears in it. -/
theorem collect_relevant_sorted_capped_positive
    (fs : List FSEntry) (rootParts : List Str) (kws changed : Option (List Str))
    (max_files snippet_radius : Nat) :
    (collect_relevant fs rootParts kws changed max_files snippet_radius).Pairwise rankOrder ∧
      (collect_relevant fs rootParts kws changed max_files snippet_radius).length ≤ max_files ∧
      ∀ f ∈ collect_relevant fs rootParts kws changed max_files snippet_radius, 0 < f.score := by
  refine ⟨?_, ?_, ?_⟩
  · have hs : List.Sorted rankLE
        (((candidateList fs changed).filterMap
          (processCandidate fs rootParts kws)).insertionSort rankLE) :=
      List.sorted_insertionSort rankLE _
    have ht := hs.sublist (List.take_sublist max_files _)
    exact ht.imp (fun h => rankLE_iff.mp h)
  · exact List.length_take_le _ _
  · intro f hf
    obtain ⟨rp, _, hrp⟩ := mem_collect_relevant_iff hf
    obtain ⟨_, hsc⟩ := processCandidate_eq_some_iff.mp hrp
    obtain ⟨hpos, rfl⟩ := scoreCandidate_eq_some_iff.mp hsc
    exact hpos

/-! ## Claim C6: scores without keywords -/

/-- Claim C6: when keywords are not supplied (absent or empty, which the
code treats alike), every returned file has score 1.0 or 1.5, and the score
is 1.5 exactly when the extension of the candidate's path belongs to the
recognised extension set. -/
theorem collect_relevant_no_keywords_scores
    (fs : List FSEntry) (rootParts : List Str) (kws changed : Option (List Str))
    (max_files snippet_radius : Nat) (hk : optListTruthy kws = false) :
    ∀ f ∈ collect_relevant fs rootParts kws changed max_files snippet_radius,
      (f.score = 1 ∨ f.score = mkRat 3 2) ∧
        ∃ rp : List Str, f.path = joinWithChar '/' rp ∧
          (f.score = mkRat 3 2 ↔ fileExt (rootParts ++ rp) ∈ DEFAULT_INCLUDE_EXTS) := by
  intro f hf
  obtain ⟨rp, _, hrp⟩ := mem_collect_relevant_iff hf
  obtain ⟨_, hsc⟩ := processCandidate_eq_some_iff.mp hrp
  obtain ⟨hpos, rfl⟩ := scoreCandidate_eq_some_iff.mp hsc
  have hpair : candPair fs kws rp = ((1 : ℚ), ([] : List Snippet)) := by
    unfold candPair
    rw [if_neg (by simp [hk])]
  have hone_half : (1 : ℚ) + mkRat 1 2 = mkRat 3 2 := by
    rw [Rat.mkRat_eq_div, Rat.mkRat_eq_div]
    norm_num
  by_cases hext : fileExt (rootParts ++ rp) ∈ DEFAULT_INCLUDE_EXTS
  · have hscore : candScore fs rootParts kws rp = mkRat 3 2 := by
      unfold candScore
      rw [if_pos ⟨hk, hext⟩, hpair, hone_half]
    refine ⟨Or.inr hscore, rp, rfl, ?_⟩
    simp [hscore, hext]
  · have hscore : candScore fs rootParts kws rp = 1 := by
      unfold candScore
      rw [if_neg (by simp [hext]), hpair]
    refine ⟨Or.inl hscore, rp, rfl, ?_⟩
    have : (1 : ℚ) ≠ mkRat 3 2 := by
      rw [Rat.mkRat_eq_div]
      norm_num
    simp [hscore, hext, this]

/-! ## Claim C10: snippet counts per returned file -/

/-- Claim C10: when the keyword list is truthy every returned file carries
between 1 and 10 snippets; when keywords are absent (or empty, which the
code treats as absent) every returned file carries none. -/
theorem collect_relevant_snippet_counts
    (fs : List FSEntry) (rootParts : List Str) (kws changed : Option (List Str))
    (max_files snippet_radius : Nat) :
    ∀ f ∈ collect_relevant fs rootParts kws changed max_files snippet_radius,
      (optListTruthy kws = true → 1 ≤ f.snippets.length ∧ f.snippets.length ≤ 10) ∧
        (optListTruthy kws = false → f.snippets.length = 0) := by
  intro f hf
  obtain ⟨rp, _, hrp⟩ := mem_collect_relevant_iff hf
  obtain ⟨_, hsc⟩ := processCandidate_eq_some_iff.mp hrp
  obtain ⟨hpos, rfl⟩ := scoreCandidate_eq_some_iff.mp hsc
  constructor
  · intro hk
    have hpair : candPair fs kws rp =
        keyword_score (read_lines_safe fs rp) (kws.getD []) := by
      unfold candPair
      rw [if_pos hk]
    have hscore : candScore fs rootParts kws rp =
        (candPair fs kws rp).1 := by
      unfold candScore
      rw [if_neg (by simp [hk])]
    rw [hscore, hpair] at hpos
    rw [List.length_map, hpair]
    cases hle : (read_lines_safe fs rp).isEmpty || (kws.getD []).isEmpty with
    | true =>
      rw [keyword_score, if_pos (by simp [hle])] at hpos
      norm_num at hpos
    | false =>
      rw [keyword_score, if_neg (by simp [hle])] at hpos ⊢
      simp only [List.length_map, List.length_take]
      have hms : 0 < (matchPositions (read_lines_safe fs rp) (kws.getD [])).length := by
        dsimp only at hpos
        exact_mod_cast hpos
      omega
  · intro hk
    have hpair : candPair fs kws rp = ((1 : ℚ), ([] : List Snippet)) := by
      unfold candPair
      rw [if_neg (by simp [hk])]
    simp [hpair]

/-! ## Concrete snapshots used by witnesses and evaluations -/

/-- A one-file snapshot: `a.py` with the single line "has token". -/
def demoKwFS : List FSEntry :=
  [{ parts := ["a.py".data], isDir := false, size := 9,
     lines := ["has token".data], content := "has token".data }]

/-- The file record the collector produces for `demoKwFS` with keyword
"token". -/
def demoKwFile : RelevantFile :=
  { path := "a.py".data, score := 1, lines := 1,
    snippets := [{ path := "a.py".data, start_line := 1, end_line := 1,
                   preview := "has token".data }] }

/-- A one-file snapshot: `notes.txt` (unrecognised extension) with one line. -/
def demoTxtFS : List FSEntry :=
  [{ parts := ["notes.txt".data], isDir := false, size := 5,
     lines := ["hello".data], content := "hello".data }]

/-- The file record the collector produces for `demoTxtFS` without
keywords. -/
def demoTxtFile : RelevantFile :=
  { path := "notes.txt".data, score := 1, lines := 1, snippets := [] }

/-- Witness for C5 at a concrete input (cap and membership conjuncts). -/
theorem collect_relevant_sorted_capped_positive_witness :
    (collect_relevant demoKwFS [] (some ["token".data]) none 20 5).length ≤ 20 ∧
      demoKwFile ∈ collect_relevant demoKwFS [] (some ["token".data]) none 20 5 :=
  ⟨(collect_relevant_sorted_capped_positive demoKwFS [] (some ["token".data]) none 20 5).2.1,
   by decide⟩

/-- Witness for C6: without keywords, the `.txt` file scores exactly 1.0. -/
theorem collect_relevant_no_keywords_scores_witness :
    optListTruthy (none : Option (List Str)) = false ∧
      (demoTxtFile.score = 1 ∨ demoTxtFile.score = mkRat 3 2) :=
  ⟨rfl,
   (collect_relevant_no_keywords_scores demoTxtFS [] none none 20 5 rfl
     demoTxtFile (by decide)).1⟩

/-- Witness for C10: with keyword "token" the returned file has exactly one
snippet (between 1 and 10), and the no-keyword run returns files with no
snippets. -/
theorem collect_relevant_snippet_counts_witness :
    (1 ≤ demoKwFile.snippets.length ∧ demoKwFile.snippets.length ≤ 10) ∧
      demoTxtFile.snippets.length = 0 :=
  ⟨(collect_relevant_snippet_counts demoKwFS [] (some ["token".data]) none 20 5
      demoKwFile (by decide)).1 rfl,
   (collect_relevant_snippet_counts demoTxtFS [] none none 20 5
      demoTxtFile (by decide)).2 rfl⟩

/-! ## Claim C2: the requested snippet radius is ignored -/

/-- A 30-line file whose only keyword match is at line 20. -/
def c2lines : List Str :=
  List.replicate 19 "x".data ++ ["has token".data] ++ List.replicate 10 "y".data

/-- Snapshot holding the 30-line file as `a.py`. -/
def c2fs : List FSEntry :=
  [{ parts := ["a.py".data], isDir := false, size := 300,
     lines := c2lines, content := [] }]

/-- Claim C2 evaluated on the code: with requested `snippet_radius = 1` and
a match at line 20 of a 30-line file, the produced window is `[15, 25]` —
the hard-coded ±5 of `keyword_score` — not the `[19, 21]` the claim's
formulas `max(1, m-r)` / `min(L, m+r)` demand. -/
theorem snippet_window_ignores_requested_radius :
    ((collect_relevant c2fs [] (some ["token".data]) none 20 1).map
        (fun f => f.snippets.map (fun s => (s.start_line, s.end_line)))) = [[(15, 25)]] ∧
      ¬(15 = max 1 (20 - 1) ∧ 25 = min 30 (20 + 1)) :=
  ⟨by decide, by decide⟩

/-! ## Claim C3: which changed paths are really considered -/

/-- A snapshot whose only entry is a present, non-empty, readable file
under `node_modules`. -/
def c3fs : List FSEntry :=
  [{ parts := ["node_modules".data, "a.js".data], isDir := false, size := 1,
     lines := ["x".data], content := "x".data }]

/-- Counterexample to C3 as stated: the changed path `node_modules/a.js`
resolves to a present regular file with readable content (neither a
directory nor absent), yet the collector returns nothing for it — the
candidate is skipped by the `SKIP_DIRS` path-component check, an exclusion
the claim does not allow. -/
theorem changed_path_skipped_despite_present_file :
    (c3fs.find? (fun e => e.parts == ["node_modules".data, "a.js".data])).isSome = true ∧
      c3fs.all (fun e => !e.isDir && !e.lines.isEmpty) = true ∧
      collect_relevant c3fs ["tmp".data] none
        (some ["node_modules/a.js".data]) 20 5 = [] :=
  ⟨by decide, by decide, by decide⟩

theorem filterMap_ite {α β : Type} (p : α → Bool) (g : α → Option β) (l : List α) :
    (l.filterMap (fun a => if p a then g a else none)) = (l.filter p).filterMap g := by
  induction l with
  | nil => rfl
  | cons a t ih =>
    cases hp : p a with
    | true => simp [List.filterMap_cons, List.filter_cons, hp, ih]
    | false => simp [List.filterMap_cons, List.filter_cons, hp, ih]

/-- Claim C3, amended: in diff mode with a non-empty change set, the
candidates are exactly the supplied changed paths resolved under the root,
and a candidate reaches scoring if and only if it is a present regular
file, not oversized, with non-empty decoded lines, and — beyond what the
claim allows — no component of its full on-disk path lies in the
skip-directory set. -/
theorem collect_relevant_changed_mode_description
    (fs : List FSEntry) (rootParts : List Str) (kws : Option (List Str))
    (changed : List Str) (mf sr : Nat) (hc : changed ≠ []) :
    collect_relevant fs rootParts kws (some changed) mf sr =
        (((((changed.map pathParts).filter (passesPreScore fs rootParts)).filterMap
            (scoreCandidate fs rootParts kws)).insertionSort rankLE).take mf) ∧
      ∀ rp : List Str, passesPreScore fs rootParts rp = true ↔
        ((∃ e, fs.find? (fun x => x.parts == rp) = some e ∧ e.isDir = false ∧
            e.size ≤ 1024 * 1024 ∧ e.lines ≠ []) ∧
          ∀ c ∈ rootParts ++ rp, c ∉ SKIP_DIRS) := by
  constructor
  · have ht : optListTruthy (some changed) = true := by
      cases changed with
      | nil => exact absurd rfl hc
      | cons a t => rfl
    unfold collect_relevant candidateList
    rw [if_pos ht, Option.getD_some]
    rw [show ((changed.map pathParts).filterMap (processCandidate fs rootParts kws)) =
          (((changed.map pathParts).filter (passesPreScore fs rootParts)).filterMap
            (scoreCandidate fs rootParts kws)) from
      filterMap_ite (passesPreScore fs rootParts) (scoreCandidate fs rootParts kws) _]
  · intro rp
    unfold passesPreScore
    rw [Bool.and_eq_true, Bool.not_eq_true', Bool.not_eq_true']
    constructor
    · rintro ⟨hskip, hread⟩
      unfold read_lines_safe at hread
      constructor
      · cases hfind : fs.find? (fun x => x.parts == rp) with
        | none => rw [hfind] at hread; simp at hread
        | some e =>
          rw [hfind] at hread
          dsimp only at hread
          split_ifs at hread with hd hs
          · simp at hread
          · simp at hread
          · exact ⟨e, rfl, by simpa using hd, by omega, List.isEmpty_eq_false.mp hread⟩
      · intro c hcm hcs
        have hfalse := List.any_eq_false.mp hskip c hcm
        exact hfalse (List.contains_iff_exists_mem_beq.mpr ⟨c, hcs, by simp⟩)
    · rintro ⟨⟨e, hfind, hdir, hsize, hlines⟩, hskip⟩
      constructor
      · rw [List.any_eq_false]
        intro c hcm hcont
        obtain ⟨d, hd, hbeq⟩ := List.contains_iff_exists_mem_beq.mp hcont
        exact hskip c hcm (beq_iff_eq.mp hbeq ▸ hd)
      · unfold read_lines_safe
        rw [hfind]
        dsimp only
        rw [if_neg (by simp [hdir]), if_neg (by omega)]
        exact List.isEmpty_eq_false.mpr hlines

/-- Witness for the amended C3 at a concrete input: the changed path of the
counterexample snapshot fails the considered-for-scoring test. -/
theorem collect_relevant_changed_mode_description_witness :
    (["node_modules/a.js".data] : List Str) ≠ [] ∧
      passesPreScore c3fs ["tmp".data] (pathParts "node_modules/a.js".data) ≠ true :=
  ⟨by decide,
   fun h =>
     by
      have := ((collect_relevant_changed_mode_description c3fs ["tmp".data] none
          ["node_modules/a.js".data] 20 5 (by decide)).2
          (pathParts "node_modules/a.js".data)).mp h
      exact absurd (this.2 "node_modules".data (by decide)) (by decide)⟩

/-! ## Claim C7: path traversal in the file-fetch endpoint -/

/-- The snapshot root of the C7 evaluation: `/tmp/mergemate_ab`. -/
def c7root : List Str := ["tmp".data, "mergemate_ab".data]

/-- A filesystem containing a file outside that root, in the sibling
directory `/tmp/mergemate_abc` whose name shares the root's string
prefix (as a concurrent request's workspace would). -/
def c7fs : List FSEntry :=
  [{ parts := ["tmp".data, "mergemate_abc".data, "f.py".data], isDir := false,
     size := 6, lines := ["secret".data], content := "secret".data }]

/-- The file-fetch request whose `..` path escapes the snapshot root. -/
def c7req : FileRequest :=
  { repo_url := "https://h/r.git".data, ref := "main".data,
    path := "../mergemate_abc/f.py".data, max_bytes := 200000 }

/-- Claim C7 evaluated on the code: the requested path resolves outside the
snapshot root (`/tmp/mergemate_ab` is not a component-wise ancestor of
`/tmp/mergemate_abc/f.py`), yet the request does not fail with the
path-traversal error — the `startswith` string comparison accepts the
sibling directory and the file's content is returned. -/
theorem get_file_prefix_collision_returns_content :
    List.isPrefixOf c7root (resolvePath c7root c7req.path) = false ∧
      get_file c7fs c7root c7req =
        .ok { path := c7req.path, bytes := 6, content := "secret".data } :=
  ⟨by decide, rfl⟩

/-! ## Claim C8: oversized repositories are rejected before scoring -/

/-- Claim C8: whenever the clone steps succeed and the materialised
snapshot exceeds the size ceiling, the request fails with the 413
payload-too-large error — for every collector, so no scoring is
performed. -/
theorem reviewWith_oversized_repo_rejected
    (collector : List FSEntry → List Str → Option (List Str) → Option (List Str) →
      Nat → Nat → List RelevantFile)
    (req : ReviewRequest) (env : ReviewEnv) (maxMB : ℚ)
    (hurl : matchesSafeHosts req.repo_url = true)
    (hinit : env.clone.initExit = 0)
    (hremote : env.clone.remoteExit = 0)
    (hfetch : env.clone.fetchExit = 0 ∨ env.clone.altFetchExit = 0)
    (hco : env.clone.checkoutExit = 0)
    (hsize : maxMB < du_mb env.fs) :
    reviewWith collector req env maxMB =
      .error { status := 413, detail := "Repository too large" } := by
  have hclone : shallow_clone req.repo_url env.clone env.fs maxMB =
      .error { status := 413, detail := "Repository too large" } := by
    unfold shallow_clone
    rw [if_neg (by simp [hurl]), if_neg (by simp [hinit]), if_neg (by simp [hremote]),
        if_neg (fun hcontra => hfetch.elim (fun h => hcontra.1 h) (fun h => hcontra.2 h)),
        if_neg (by simp [hco]), if_pos hsize]
  unfold reviewWith
  rw [hclone]

/-- A successful set of clone-step outcomes. -/
def cloneOK : CloneEnv :=
  { initExit := 0, initErr := "", remoteExit := 0, remoteErr := "",
    fetchExit := 0, fetchErr := "", altFetchExit := 0, altFetchErr := "",
    checkoutExit := 0, checkoutErr := "" }

/-- A 400 MiB snapshot (one 419430400-byte file). -/
def bigFS : List FSEntry :=
  [{ parts := ["big.dat".data], isDir := false, size := 419430400,
     lines := [], content := [] }]

/-- The request and environment of the C8 witness. -/
def c8req : ReviewRequest :=
  { repo_url := "https://example.com/repo.git".data, ref := "main".data,
    base_ref := none, keywords := none, max_files := 20, snippet_radius := 5 }

/-- Environment whose snapshot is 400 MiB. -/
def c8env : ReviewEnv :=
  { clone := cloneOK, fs := bigFS, rootParts := ["tmp".data, "mm".data],
    baseFetchExit := 0, diffExit := 0, diffOutLines := [] }

/-- Witness for C8: at the 400 MiB snapshot and the default 300 MiB
ceiling, the real collector's review fails with status 413. -/
theorem reviewWith_oversized_repo_rejected_witness :
    matchesSafeHosts c8req.repo_url = true ∧ (300 : ℚ) < du_mb bigFS ∧
      reviewWith collect_relevant c8req c8env 300 =
        .error { status := 413, detail := "Repository too large" } := by
  have hsize : (300 : ℚ) < du_mb bigFS := by
    have hsum : (((bigFS.filter (fun e => !e.isDir)).map (fun e => e.size)).sum) = 419430400 := by
      decide
    unfold du_mb
    rw [hsum]
    norm_num
  exact ⟨by decide, hsize,
    reviewWith_oversized_repo_rejected collect_relevant c8req c8env 300
      (by decide) rfl rfl (Or.inl rfl) rfl hsize⟩

/-! ## Claim C1: empty diff falls back to the full-tree scan -/

/-- The diff-mode request of the C1 evaluation (no keywords). -/
def c1req : ReviewRequest :=
  { repo_url := "https://example.com/repo.git".data, ref := "main".data,
    base_ref := some "dev".data, keywords := none, max_files := 20, snippet_radius := 5 }

/-- Environment: clone succeeds, the snapshot holds one readable file, and
`git diff --name-only` succeeds with empty output. -/
def c1env : ReviewEnv :=
  { clone := cloneOK, fs := demoTxtFS, rootParts := ["tmp".data, "mm".data],
    baseFetchExit := 0, diffExit := 0, diffOutLines := [] }

/-- Claim C1 evaluated on the code: with a truthy `base_ref` and an empty
diff, the response has `mode = "diff"` and `changed_files = []` as claimed,
but `relevant` is NOT empty — the falsy empty change list sends the
collector into the full-tree scan, which returns the snapshot's file. -/
theorem review_empty_diff_scans_full_tree :
    (review c1req c1env 300).toOption.map
        (fun r => (r.mode, r.changed_files, r.relevant)) =
      some ("diff", some ([] : List Str), [demoTxtFile]) := by
  have hclone : shallow_clone c1req.repo_url c1env.clone c1env.fs 300 = .ok () := by
    have hsize : ¬((300 : ℚ) < du_mb c1env.fs) := by
      have hsum : (((c1env.fs.filter (fun e => !e.isDir)).map (fun e => e.size)).sum) = 5 := by
        decide
      unfold du_mb
      rw [hsum]
      norm_num
    unfold shallow_clone
    rw [if_neg (by decide), if_neg (by decide), if_neg (by decide), if_neg (by decide),
        if_neg (by decide), if_neg hsize]
  have hdiff : diff_changed_files c1env.diffExit c1env.diffOutLines = .ok [] := by
    unfold diff_changed_files
    rw [if_neg (by decide)]
    rfl
  unfold review reviewWith
  rw [hclone]
  dsimp only
  rw [if_pos (by decide : optStrTruthy c1req.base_ref = true), hdiff]
  dsimp only [Except.toOption, Option.map]
  decide

end MergeMate
